import Mathlib

/-!
# Verification of the Excel join tool (`src/Advance Joins/joins.py`)

Shallow embedding of the join-and-validate engine of the Streamlit app.
The app's engine consists of:

* `read_excel_with_header(file, header_row)` — a direct call to
  `pd.read_excel(file, header=header_row)` (src lines 81–83);
* the smart-validation block computing
  `df1_keys = df1[join_col1].dropna().astype(str).unique()` (same for
  `df2`), `common = set(df1_keys) & set(df2_keys)`, and stopping with an
  error when `common` is empty (src lines 163–179);
* `pd.merge(df1, df2, how=join_type, left_on=join_col1, right_on=join_col2)`
  (src line 188);
* `convert_df_to_excel(df)` — `df.to_excel(writer, index=False, ...)`
  (src lines 85–90).

The pandas calls are embedded by their documented semantics:

* merge key equality is *native* value equality (string and number never
  match; int64 and float64 columns are promoted to a common numeric type,
  so an integer 1 matches a float 1.0; NaN keys match each other);
* merge row order: `inner`/`left` preserve the left frame's row order
  (each left row followed by its right matches in right order), `right`
  preserves the right frame's row order, `outer` sorts the join keys
  lexicographically and emits one group per key;
* `read_excel` materialises the sheet's used range; header cells that are
  blank become `Unnamed: <index>` columns (they are not dropped); data
  cells whose text is one of pandas' default NA tokens are read as null;
  every Excel number cell is re-typed as a float on read (pandas ≥ 2.0);
* `to_excel(index=False)` writes one header row of column names followed
  by the data rows, nulls as blanks; Excel stores numbers untyped, so the
  frame's int/float distinction does not survive serialization
  (xlsxwriter writes the float `3.0` as the stored number `3`).

Cells are modelled as null / text / integer-typed number / float-typed
number with integral magnitude; this value domain is closed under every
operation the engine performs and exhibits the type-sensitive behaviour
the claims are about (`str(2) = "2"`, `str(2.0) = "2.0"`).
-/

set_option autoImplicit false

namespace JoinTool

/-- A spreadsheet/dataframe cell: missing value, text, an integer-typed
number, or a float-typed number of integral magnitude (`floatv n` models
the float `n.0`, whose Python string form is `"n.0"`). -/
inductive Cell where
  | null
  | str (s : String)
  | intv (n : Int)
  | floatv (n : Int)
deriving Repr, DecidableEq

/-- Lexicographic (code-point) order on character lists, used for the
outer join's key sort (Python compares strings by code points). -/
def strLeChars : List Char → List Char → Bool
  | [], _ => true
  | _ :: _, [] => false
  | a :: as, b :: bs =>
    if a.val.toNat < b.val.toNat then true
    else if b.val.toNat < a.val.toNat then false
    else strLeChars as bs

/-- Strip leading and trailing whitespace (the `trim` of the claim's
wording about the validator). -/
def trimStr (s : String) : String :=
  String.mk
    (((s.data.dropWhile Char.isWhitespace).reverse.dropWhile
        Char.isWhitespace).reverse)

namespace Cell

/-- Is the cell missing (NaN)? -/
def isNull : Cell → Bool
  | null => true
  | _ => false

/-- Python `str(x)`, as applied by `.astype(str)` in the validator:
text is unchanged (no trimming), an int renders without a decimal point,
a float with integral magnitude renders with a trailing `.0`. -/
def pyStr : Cell → String
  | null => "nan"
  | str s => s
  | intv n => toString n
  | floatv n => toString n ++ ".0"

/-- Key equality used by `pd.merge`: native value equality. Text matches
only identical text; int-typed and float-typed numbers are compared
numerically (dtype promotion); NaN join keys match each other (pandas
treats NaN as an ordinary key value in merges). Text never matches a
number, whatever the rendering. -/
def beqNative : Cell → Cell → Bool
  | null, null => true
  | str a, str b => a == b
  | intv a, intv b => a == b
  | floatv a, floatv b => a == b
  | intv a, floatv b => a == b
  | floatv a, intv b => a == b
  | _, _ => false

/-- Sort key used for the outer join's lexicographic key ordering:
numbers sort by value, text sorts lexicographically after all numbers,
missing keys sort last (as NaN does in pandas sorts). The cross-kind
rank is a fixed deterministic choice; the claims about the outer join
only exercise same-kind comparisons. -/
def rank : Cell → Nat
  | null => 2
  | str _ => 1
  | intv _ => 0
  | floatv _ => 0

/-- Numeric sort value of a number cell. -/
def numVal : Cell → Int
  | intv n => n
  | floatv n => n
  | _ => 0

/-- Text sort value of a text cell. -/
def strVal : Cell → String
  | str s => s
  | _ => ""

/-- Total order on cells used to sort outer-join keys. -/
def cellLe (a b : Cell) : Bool :=
  if a.rank ≠ b.rank then a.rank ≤ b.rank
  else if a.rank = 0 then a.numVal ≤ b.numVal
  else strLeChars a.strVal.data b.strVal.data

end Cell

/-- A loaded dataframe: ordered column names and data rows. -/
structure Table where
  cols : List String
  rows : List (List Cell)
deriving Repr, DecidableEq

namespace Table

/-- Number of columns. -/
def width (t : Table) : Nat := t.cols.length

/-- Well-formedness: every data row has one cell per column. -/
def WF (t : Table) : Prop := ∀ r ∈ t.rows, r.length = t.cols.length

instance (t : Table) : Decidable t.WF := List.decidableBAll _ t.rows

end Table

/-- Index of a column name in a table's header (`df.columns.get_loc`). -/
def colIdx (t : Table) (c : String) : Nat := t.cols.indexOf c

/-- Cell of a row at a column index; out-of-range reads as null. -/
def rowCell (r : List Cell) (i : Nat) : Cell := r.getD i Cell.null

/-- The join-key cell of a row: `row[join_col]`. -/
def rowKey (t : Table) (c : String) (r : List Cell) : Cell :=
  rowCell r (colIdx t c)

/-- The column `df[c]` as a list of cells (`df[c]` in row order). -/
def colVals (t : Table) (c : String) : List Cell :=
  t.rows.map (rowKey t c)

/-- Deduplication keeping one representative per string, as `.unique()`
does on the validator's key series (only the resulting *set* is used). -/
def dedupStr : List String → List String
  | [] => []
  | a :: rest =>
    let d := dedupStr rest
    if d.contains a then d else a :: d

/-- `df[c].dropna().astype(str).unique()` (src lines 163–164): the
column's non-null values, each coerced to its Python string form
(no trimming), deduplicated. -/
def seriesKeys (t : Table) (c : String) : List String :=
  dedupStr (((colVals t c).filter (fun v => !v.isNull)).map Cell.pyStr)

/-- `common = set(df1_keys) & set(df2_keys)` (src line 166). -/
def common (t1 : Table) (c1 : String) (t2 : Table) (c2 : String) :
    List String :=
  (seriesKeys t1 c1).filter (fun k => (seriesKeys t2 c2).contains k)

/-- The four values of the app's join-type selectbox (src line 143). -/
inductive JoinKind where
  | inner
  | left
  | right
  | outer
deriving Repr, DecidableEq

/-- A row of `w` nulls: the null-filled side of an unmatched outer row. -/
def nullRow (w : Nat) : List Cell := List.replicate w Cell.null

/-- The rows of `t` whose key in column `c` natively equals `k`. -/
def matchesIn (t : Table) (c : String) (k : Cell) : List (List Cell) :=
  t.rows.filter (fun r => Cell.beqNative k (rowKey t c r))

/-- `pd.merge(..., how='inner')`: left rows in order, each paired with
its right matches in right order; unmatched rows dropped. -/
def innerRows (t1 : Table) (c1 : String) (t2 : Table) (c2 : String) :
    List (List Cell) :=
  t1.rows.flatMap fun r1 =>
    (matchesIn t2 c2 (rowKey t1 c1 r1)).map (fun r2 => r1 ++ r2)

/-- `pd.merge(..., how='left')`: left rows in order; an unmatched left
row yields one row with null-filled right columns. -/
def leftRows (t1 : Table) (c1 : String) (t2 : Table) (c2 : String) :
    List (List Cell) :=
  t1.rows.flatMap fun r1 =>
    if (matchesIn t2 c2 (rowKey t1 c1 r1)).isEmpty then
      [r1 ++ nullRow t2.width]
    else (matchesIn t2 c2 (rowKey t1 c1 r1)).map (fun r2 => r1 ++ r2)

/-- `pd.merge(..., how='right')`: right rows in order; an unmatched right
row yields one row with null-filled left columns. -/
def rightRows (t1 : Table) (c1 : String) (t2 : Table) (c2 : String) :
    List (List Cell) :=
  t2.rows.flatMap fun r2 =>
    if (matchesIn t1 c1 (rowKey t2 c2 r2)).isEmpty then
      [nullRow t1.width ++ r2]
    else (matchesIn t1 c1 (rowKey t2 c2 r2)).map (fun r1 => r1 ++ r2)

/-- Insert a cell into a sorted list of cells. -/
def insertCell (x : Cell) : List Cell → List Cell
  | [] => [x]
  | y :: ys => if Cell.cellLe x y then x :: y :: ys else y :: insertCell x ys

/-- Sort cells by `cellLe` (insertion sort). -/
def sortCells : List Cell → List Cell
  | [] => []
  | x :: xs => insertCell x (sortCells xs)

/-- One representative per native-equality class of key values (the
factorised distinct keys; their pre-sort order is irrelevant because the
outer join sorts them). -/
def dedupKeys : List Cell → List Cell
  | [] => []
  | a :: rest =>
    let d := dedupKeys rest
    if d.any (fun x => Cell.beqNative a x) then d else a :: d

/-- All join-key values of both frames, in frame order. -/
def allKeys (t1 : Table) (c1 : String) (t2 : Table) (c2 : String) :
    List Cell :=
  colVals t1 c1 ++ colVals t2 c2

/-- The outer join's key iteration order: the distinct keys of both
frames, sorted (`how='outer'` sorts the join keys lexicographically). -/
def outerKeys (t1 : Table) (c1 : String) (t2 : Table) (c2 : String) :
    List Cell :=
  sortCells (dedupKeys (allKeys t1 c1 t2 c2))

/-- The outer join's row group for one key: the within-group cartesian
product when the key occurs on both sides, otherwise the one side's rows
null-filled on the other side. -/
def outerGroup (t1 : Table) (c1 : String) (t2 : Table) (c2 : String)
    (k : Cell) : List (List Cell) :=
  if (matchesIn t1 c1 k).isEmpty then
    (matchesIn t2 c2 k).map (fun r2 => nullRow t1.width ++ r2)
  else if (matchesIn t2 c2 k).isEmpty then
    (matchesIn t1 c1 k).map (fun r1 => r1 ++ nullRow t2.width)
  else
    (matchesIn t1 c1 k).flatMap fun r1 =>
      (matchesIn t2 c2 k).map (fun r2 => r1 ++ r2)

/-- `pd.merge(..., how='outer')`: one group per distinct key, groups in
sorted key order. -/
def outerRows (t1 : Table) (c1 : String) (t2 : Table) (c2 : String) :
    List (List Cell) :=
  (outerKeys t1 c1 t2 c2).flatMap (outerGroup t1 c1 t2 c2)

/-- The data rows of
`pd.merge(df1, df2, how=join_type, left_on=join_col1, right_on=join_col2)`
(src line 188). -/
def mergeRows (t1 : Table) (c1 : String) (t2 : Table) (c2 : String) :
    JoinKind → List (List Cell)
  | .inner => innerRows t1 c1 t2 c2
  | .left => leftRows t1 c1 t2 c2
  | .right => rightRows t1 c1 t2 c2
  | .outer => outerRows t1 c1 t2 c2

/-- Column names of the merged frame: pandas suffixes colliding names
with `_x`/`_y`. (When `left_on` and `right_on` name the same column,
real pandas drops the right key column and keeps a single coalesced key
instead of the `_x`/`_y` pair; no claim depends on the merged header or
row width, and every claim's row counts, lengths, orderings and
left/right projections are invariant under this difference.) -/
def mergedCols (t1 t2 : Table) : List String :=
  t1.cols.map (fun c => if t2.cols.contains c then c ++ "_x" else c) ++
    t2.cols.map (fun c => if t1.cols.contains c then c ++ "_y" else c)

/-- The merged dataframe produced at src line 188. -/
def pdMerge (t1 : Table) (c1 : String) (t2 : Table) (c2 : String)
    (how : JoinKind) : Table :=
  ⟨mergedCols t1 t2, mergeRows t1 c1 t2 c2 how⟩

/-! ## Loader and exporter

A spreadsheet is modelled as its used range: a rectangular grid of
cells, one inner list per sheet row. An Excel number cell is untyped;
the embedding stores a sheet number canonically with the `intv`
constructor (the writer below normalizes to it), and the reader types
every sheet number as a float, as pandas ≥ 2.0 does. -/

/-- A sheet's used range. -/
abbrev Grid := List (List Cell)

/-- Serialization of one frame cell into an Excel cell by
`df.to_excel`: Excel stores numbers untyped, so the int 3 and the float
3.0 become the same stored number (xlsxwriter writes `3.0` as `3`) —
the frame's int/float distinction is collapsed on write. -/
def toExcelCell : Cell → Cell
  | Cell.floatv n => Cell.intv n
  | c => c

/-- Numeric re-typing applied by `pd.read_excel` (pandas ≥ 2.0): every
Excel number cell is read back as a float64 value, whatever dtype the
exported frame had. -/
def excelRetype : Cell → Cell
  | Cell.intv n => Cell.floatv n
  | c => c

/-- Pandas' default NA tokens (`STR_NA_VALUES`): a data cell whose text
is one of these is read back as null by `pd.read_excel`. -/
def naTokens : List String :=
  ["", "#N/A", "#N/A N/A", "#NA", "-1.#IND", "-1.#QNAN", "-NaN", "-nan",
   "1.#IND", "1.#QNAN", "<NA>", "N/A", "NA", "NULL", "NaN", "None",
   "n/a", "nan", "null"]

/-- NA conversion applied to data cells on read: text equal to a default
NA token becomes null; every other cell is unchanged. -/
def naConvert : Cell → Cell
  | Cell.str s => if naTokens.contains s then Cell.null else Cell.str s
  | c => c

/-- Column names from the header row: a blank header cell over the
used range yields a generated `Unnamed: <index>` name (pandas keeps the
column, it does not drop it); a numeric header cell is read through the
same float re-typing as data, so its canonical label text carries the
float rendering. -/
def headerNamesAux (i : Nat) : List Cell → List String
  | [] => []
  | c :: cs =>
    (if c.isNull then "Unnamed: " ++ toString i else (excelRetype c).pyStr)
      :: headerNamesAux (i + 1) cs

/-- Column names of `pd.read_excel(..., header=h)` from the header row. -/
def headerNames (cells : List Cell) : List String := headerNamesAux 0 cells

/-- `read_excel_with_header(file, header_row)` (src lines 81–83), i.e.
`pd.read_excel(file, header=header_row)`: rows before `header_row` are
discarded, the row at `header_row` provides the column names, all later
rows of the used range become data rows, with every number re-typed as
a float and NA-token text converted to null. `none` models the
`ParseError` when the header row is past the sheet. -/
def read_excel_with_header (sheet : Grid) (headerRow : Nat) : Option Table :=
  match sheet.drop headerRow with
  | [] => none
  | hd :: rest =>
    some ⟨headerNames hd,
      rest.map (fun r => r.map (fun c => naConvert (excelRetype c)))⟩

/-- `convert_df_to_excel(df)` (src lines 85–90):
`df.to_excel(writer, index=False, sheet_name='MergedData')` writes one
header row holding the column names as text, then the data rows in
order with each cell serialized to its untyped Excel form
(`toExcelCell`); no index column is written. -/
def convert_df_to_excel (t : Table) : Grid :=
  (t.cols.map Cell.str) :: t.rows.map (fun r => r.map toExcelCell)

/-! ## The app's join flow (src lines 113–210) -/

/-- Outcome of a successful run of the processing section: the merged
dataframe that is previewed and the exported workbook offered for
download. -/
structure FlowOutput where
  merged : Table
  download : Grid
deriving Repr, DecidableEq

/-- The validation-and-join part of the script (src lines 163–210):
compute `common`; if it is empty, show the error and `st.stop()` —
the merge at line 188 and the download button are never reached;
otherwise merge and build the downloadable workbook. -/
def runJoinFlow (t1 : Table) (c1 : String) (t2 : Table) (c2 : String)
    (how : JoinKind) : Except String FlowOutput :=
  if (common t1 c1 t2 c2).isEmpty then
    Except.error "No matching values found"
  else
    let m := pdMerge t1 c1 t2 c2 how
    Except.ok ⟨m, convert_df_to_excel m⟩

/-! ## Spec-worded variant of the validator (for the refinement claim
about trimming) -/

/-- Worded from the spec: the key set of one column per the claim —
non-null values, each coerced to its *trimmed* canonical text
representation, deduplicated. (The code's `seriesKeys` does not trim.) -/
def trimmedKeysSpec (t : Table) (c : String) : List String :=
  dedupStr
    (((colVals t c).filter (fun v => !v.isNull)).map
      (fun v => trimStr v.pyStr))

/-- Worded from the spec: `overlap` as the claim states it, the
intersection of the two trimmed key sets. -/
def overlapSpecTrimmed (t1 : Table) (c1 : String) (t2 : Table)
    (c2 : String) : List String :=
  (trimmedKeysSpec t1 c1).filter
    (fun k => (trimmedKeysSpec t2 c2).contains k)

/-! ## Auxiliary definitions used to state the claims -/

/-- Number of occurrences (under the join's native equality) of the key
value `v` in the join column `c` of `t`. -/
def keyCount (t : Table) (c : String) (v : Cell) : Nat :=
  (colVals t c).countP (fun x => Cell.beqNative v x)

/-- Is the cell a text or numeric value (not missing)? -/
def Cell.textOrNum : Cell → Bool
  | Cell.null => false
  | _ => true

/-- Is the cell safe under the reader's NA-token conversion (numeric, or
text that is not a default NA token)? -/
def Cell.safeText : Cell → Bool
  | Cell.str s => !(naTokens.contains s)
  | _ => true

/-- Left-join completeness (the property of claim C5): every row of the
left table appears at least once as the left part of a result row, and a
left row whose key matches nothing in the right table appears exactly as
often as it occurs in the left table, with null-filled right columns. -/
def leftJoinCompleteness (t1 : Table) (c1 : String) (t2 : Table)
    (c2 : String) : Prop :=
  (∀ r1 ∈ t1.rows, ∃ mr ∈ leftRows t1 c1 t2 c2, mr.take t1.width = r1) ∧
  (∀ r1 ∈ t1.rows, matchesIn t2 c2 (rowKey t1 c1 r1) = [] →
    (leftRows t1 c1 t2 c2).countP
        (fun mr => decide (mr = r1 ++ nullRow t2.width))
      = t1.rows.countP (fun r => decide (r = r1)))

/-- Merge row-order property (the amended claim C6): inner and left
joins iterate the left table's rows in their original order (each left
row repeated once per right match, unmatched left rows once); the right
join iterates the right table's rows in their original order; the full
outer join instead iterates one group per distinct key in sorted key
order. -/
def mergeOrderingSpec (t1 : Table) (c1 : String) (t2 : Table)
    (c2 : String) : Prop :=
  (mergeRows t1 c1 t2 c2 .inner).map (List.take t1.width)
      = t1.rows.flatMap (fun r1 =>
          List.replicate (matchesIn t2 c2 (rowKey t1 c1 r1)).length r1) ∧
  (mergeRows t1 c1 t2 c2 .left).map (List.take t1.width)
      = t1.rows.flatMap (fun r1 =>
          List.replicate (max 1 (matchesIn t2 c2 (rowKey t1 c1 r1)).length) r1) ∧
  (mergeRows t1 c1 t2 c2 .right).map (List.drop t1.width)
      = t2.rows.flatMap (fun r2 =>
          List.replicate (max 1 (matchesIn t1 c1 (rowKey t2 c2 r2)).length) r2) ∧
  (outerKeys t1 c1 t2 c2).Pairwise (fun a b => Cell.cellLe a b = true)

/-! ## Properties of native key equality -/

theorem Cell.beqNative_refl (a : Cell) : Cell.beqNative a a = true := by
  cases a <;> simp [Cell.beqNative]

theorem Cell.beqNative_symm {a b : Cell} (h : Cell.beqNative a b = true) :
    Cell.beqNative b a = true := by
  cases a <;> cases b <;> simp_all [Cell.beqNative]

theorem Cell.beqNative_trans {a b c : Cell}
    (hab : Cell.beqNative a b = true) (hbc : Cell.beqNative b c = true) :
    Cell.beqNative a c = true := by
  cases a <;> cases b <;> cases c <;> simp_all [Cell.beqNative]

theorem Cell.beqNative_congr_left {v kk : Cell}
    (h : Cell.beqNative v kk = true) (x : Cell) :
    Cell.beqNative kk x = Cell.beqNative v x := by
  cases hx : Cell.beqNative kk x with
  | true => exact (Cell.beqNative_trans h hx).symm
  | false =>
    cases hv : Cell.beqNative v x with
    | true =>
      have : Cell.beqNative kk x = true :=
        Cell.beqNative_trans (Cell.beqNative_symm h) hv
      rw [hx] at this
      exact absurd this Bool.false_ne_true
    | false => rfl

theorem Cell.beqNative_null_of_not_null {v : Cell} (hv : v.isNull = false) :
    Cell.beqNative v Cell.null = false := by
  cases v <;> simp_all [Cell.beqNative, Cell.isNull]

/-! ## Properties of the outer-join key order -/

theorem strLeChars_total (a b : List Char) :
    strLeChars a b = true ∨ strLeChars b a = true := by
  induction a generalizing b with
  | nil => left; rfl
  | cons x xs ih =>
    cases b with
    | nil => right; rfl
    | cons y ys =>
      by_cases hxy : x.val.toNat < y.val.toNat
      · left; simp [strLeChars, hxy]
      · by_cases hyx : y.val.toNat < x.val.toNat
        · right; simp [strLeChars, hyx]
        · rcases ih ys with h | h
          · left; simp [strLeChars, hxy, hyx, h]
          · right; simp [strLeChars, hxy, hyx, h]

theorem strLeChars_trans {a b c : List Char} (h1 : strLeChars a b = true)
    (h2 : strLeChars b c = true) : strLeChars a c = true := by
  induction a generalizing b c with
  | nil => rfl
  | cons x xs ih =>
    cases b with
    | nil => simp [strLeChars] at h1
    | cons y ys =>
      cases c with
      | nil => simp [strLeChars] at h2
      | cons z zs =>
        simp only [strLeChars] at h1 h2 ⊢
        split_ifs at h1 h2 ⊢ <;>
          first
            | rfl
            | omega
            | exact ih h1 h2

theorem Cell.cellLe_total (a b : Cell) :
    Cell.cellLe a b = true ∨ Cell.cellLe b a = true := by
  cases a <;> cases b <;>
    simp [Cell.cellLe, Cell.rank, Cell.numVal, Cell.strVal] <;>
    first
      | rfl
      | omega
      | exact strLeChars_total _ _

theorem Cell.cellLe_trans {a b c : Cell}
    (hab : Cell.cellLe a b = true) (hbc : Cell.cellLe b c = true) :
    Cell.cellLe a c = true := by
  cases a <;> cases b <;> cases c <;>
    simp_all [Cell.cellLe, Cell.rank, Cell.numVal, Cell.strVal] <;>
    first
      | rfl
      | omega
      | exact strLeChars_trans hab hbc

theorem mem_insertCell {x z : Cell} {l : List Cell} :
    z ∈ insertCell x l ↔ z = x ∨ z ∈ l := by
  induction l with
  | nil => simp [insertCell]
  | cons y ys ih =>
    by_cases h : Cell.cellLe x y = true
    · simp [insertCell, h]
    · simp [insertCell, h, ih]
      tauto

theorem perm_insertCell (x : Cell) (l : List Cell) :
    (insertCell x l).Perm (x :: l) := by
  induction l with
  | nil => simp [insertCell]
  | cons y ys ih =>
    by_cases h : Cell.cellLe x y = true
    · simp [insertCell, h]
    · have he : insertCell x (y :: ys) = y :: insertCell x ys := by
        simp [insertCell, h]
      rw [he]
      exact (ih.cons y).trans (List.Perm.swap x y ys)

theorem perm_sortCells (l : List Cell) : (sortCells l).Perm l := by
  induction l with
  | nil => simp [sortCells]
  | cons x xs ih =>
    exact (perm_insertCell x (sortCells xs)).trans (ih.cons x)

theorem sorted_insertCell {x : Cell} {l : List Cell}
    (h : l.Pairwise (fun a b => Cell.cellLe a b = true)) :
    (insertCell x l).Pairwise (fun a b => Cell.cellLe a b = true) := by
  induction l with
  | nil => simp [insertCell]
  | cons y ys ih =>
    rw [List.pairwise_cons] at h
    cases hxy : Cell.cellLe x y with
    | true =>
      have he : insertCell x (y :: ys) = x :: y :: ys := by
        simp [insertCell, hxy]
      rw [he, List.pairwise_cons, List.pairwise_cons]
      refine ⟨?_, h.1, h.2⟩
      intro z hz
      rcases List.mem_cons.mp hz with rfl | hz
      · exact hxy
      · exact Cell.cellLe_trans hxy (h.1 z hz)
    | false =>
      have he : insertCell x (y :: ys) = y :: insertCell x ys := by
        simp [insertCell, hxy]
      rw [he, List.pairwise_cons]
      refine ⟨?_, ih h.2⟩
      intro z hz
      rcases mem_insertCell.mp hz with rfl | hz
      · rcases Cell.cellLe_total z y with h' | h'
        · rw [hxy] at h'
          exact absurd h' Bool.false_ne_true
        · exact h'
      · exact h.1 z hz

theorem sorted_sortCells (l : List Cell) :
    (sortCells l).Pairwise (fun a b => Cell.cellLe a b = true) := by
  induction l with
  | nil => simp [sortCells]
  | cons x xs ih => exact sorted_insertCell ih

/-! ## Deduplication lemmas -/

theorem mem_dedupStr {a : String} {l : List String} :
    a ∈ dedupStr l ↔ a ∈ l := by
  induction l with
  | nil => simp [dedupStr]
  | cons b rest ih =>
    simp only [dedupStr]
    by_cases h : (dedupStr rest).contains b
    · rw [if_pos h]
      have hb : b ∈ dedupStr rest := by
        have := List.elem_eq_mem b (dedupStr rest)
        simp only [List.contains] at h
        rw [this] at h
        exact of_decide_eq_true h
      constructor
      · intro ha; exact List.mem_cons_of_mem _ (ih.mp ha)
      · intro ha
        rcases List.mem_cons.mp ha with rfl | ha
        · exact hb
        · exact ih.mpr ha
    · rw [if_neg h]
      simp only [List.mem_cons, ih]

theorem nodup_dedupStr (l : List String) : (dedupStr l).Nodup := by
  induction l with
  | nil => simp [dedupStr]
  | cons b rest ih =>
    simp only [dedupStr]
    by_cases h : (dedupStr rest).contains b
    · rw [if_pos h]; exact ih
    · rw [if_neg h]
      refine List.nodup_cons.mpr ⟨?_, ih⟩
      intro hb
      apply h
      have := List.elem_eq_mem b (dedupStr rest)
      simp only [List.contains, this]
      exact decide_eq_true hb

theorem dedupKeys_subset {x : Cell} {l : List Cell}
    (h : x ∈ dedupKeys l) : x ∈ l := by
  induction l with
  | nil => simp [dedupKeys] at h
  | cons a rest ih =>
    simp only [dedupKeys] at h
    by_cases ha : (dedupKeys rest).any (fun y => Cell.beqNative a y)
    · rw [if_pos ha] at h
      exact List.mem_cons_of_mem _ (ih h)
    · rw [if_neg ha] at h
      rcases List.mem_cons.mp h with rfl | h
      · exact List.mem_cons_self _ _
      · exact List.mem_cons_of_mem _ (ih h)

theorem dedupKeys_covers {x : Cell} {l : List Cell} (h : x ∈ l) :
    ∃ k ∈ dedupKeys l, Cell.beqNative k x = true := by
  induction l with
  | nil => simp at h
  | cons a rest ih =>
    simp only [dedupKeys]
    rcases List.mem_cons.mp h with rfl | hx
    · by_cases ha : (dedupKeys rest).any (fun y => Cell.beqNative x y)
      · rw [if_pos ha]
        rcases List.any_eq_true.mp ha with ⟨k, hk, hbk⟩
        exact ⟨k, hk, Cell.beqNative_symm hbk⟩
      · rw [if_neg ha]
        exact ⟨x, List.mem_cons_self _ _, Cell.beqNative_refl x⟩
    · rcases ih hx with ⟨k, hk, hbk⟩
      by_cases ha : (dedupKeys rest).any (fun y => Cell.beqNative a y)
      · rw [if_pos ha]; exact ⟨k, hk, hbk⟩
      · rw [if_neg ha]; exact ⟨k, List.mem_cons_of_mem _ hk, hbk⟩

theorem dedupKeys_pairwise (l : List Cell) :
    (dedupKeys l).Pairwise (fun a b => Cell.beqNative a b = false) := by
  induction l with
  | nil => simp [dedupKeys]
  | cons a rest ih =>
    simp only [dedupKeys]
    by_cases ha : (dedupKeys rest).any (fun y => Cell.beqNative a y)
    · rw [if_pos ha]; exact ih
    · rw [if_neg ha]
      refine List.pairwise_cons.mpr ⟨?_, ih⟩
      intro b hb
      cases hab : Cell.beqNative a b with
      | false => rfl
      | true =>
        exact absurd (List.any_eq_true.mpr ⟨b, hb, hab⟩) ha

/-! ## Counting helpers -/

theorem countP_flatMap {α β : Type} (p : β → Bool) (f : α → List β)
    (l : List α) :
    (l.flatMap f).countP p = (l.map (fun a => (f a).countP p)).sum := by
  induction l with
  | nil => simp
  | cons a l ih => simp [List.flatMap_cons, List.countP_append, ih]

theorem sum_map_add {α : Type} (f g : α → Nat) (l : List α) :
    (l.map (fun a => f a + g a)).sum = (l.map f).sum + (l.map g).sum := by
  induction l with
  | nil => simp
  | cons a l ih => simp [ih]; omega

theorem sum_map_ite {α : Type} (q : α → Bool) (c : Nat) (l : List α) :
    (l.map (fun a => if q a then c else 0)).sum = c * l.countP q := by
  induction l with
  | nil => simp
  | cons a l ih =>
    by_cases h : q a = true
    · simp [h, ih, List.countP_cons, Nat.mul_add]
      omega
    · simp [h, ih, List.countP_cons]

theorem countP_beq_one {v : Cell} {ks : List Cell}
    (hv : ∃ k ∈ ks, Cell.beqNative k v = true)
    (hpw : ks.Pairwise (fun a b => Cell.beqNative a b = false)) :
    ks.countP (fun k => Cell.beqNative k v) = 1 := by
  induction ks with
  | nil => simp at hv
  | cons k ks ih =>
    rw [List.pairwise_cons] at hpw
    rw [List.countP_cons]
    cases hk : Cell.beqNative k v with
    | true =>
      simp only [hk, if_pos]
      have hzero : ks.countP (fun k' => Cell.beqNative k' v) = 0 := by
        rw [List.countP_eq_zero]
        intro k' hk' hbad
        have : Cell.beqNative k k' = true :=
          Cell.beqNative_trans hk (Cell.beqNative_symm hbad)
        rw [hpw.1 k' hk'] at this
        exact Bool.false_ne_true this
      omega
    | false =>
      rcases hv with ⟨k', hk', hbk⟩
      rcases List.mem_cons.mp hk' with rfl | hk'
      · rw [hk] at hbk
        exact absurd hbk Bool.false_ne_true
      · have hone := ih ⟨k', hk', hbk⟩ hpw.2
        simp only [if_neg Bool.false_ne_true, Nat.add_zero]
        exact hone

theorem sum_countP_key {α : Type} (key : α → Cell) (rows : List α)
    (ks : List Cell)
    (hcov : ∀ r ∈ rows, ∃ k ∈ ks, Cell.beqNative k (key r) = true)
    (hpw : ks.Pairwise (fun a b => Cell.beqNative a b = false)) :
    (ks.map (fun k => rows.countP (fun r => Cell.beqNative k (key r)))).sum
      = rows.length := by
  induction rows with
  | nil => simp
  | cons r rest ih =>
    have hstep :
        ks.map (fun k => (r :: rest).countP (fun r' => Cell.beqNative k (key r')))
          = ks.map (fun k =>
              rest.countP (fun r' => Cell.beqNative k (key r')) +
                if Cell.beqNative k (key r) then 1 else 0) := by
      refine List.map_congr_left ?_
      intro k _
      rw [List.countP_cons]
    rw [hstep, sum_map_add, ih (fun r' hr' => hcov r' (List.mem_cons_of_mem _ hr')),
      sum_map_ite, countP_beq_one (hcov r (List.mem_cons_self _ _)) hpw]
    simp only [List.length_cons, Nat.mul_one]

/-! ## Key counting -/

theorem keyCount_eq_countP (t : Table) (c : String) (v : Cell) :
    keyCount t c v = t.rows.countP (fun r => Cell.beqNative v (rowKey t c r)) := by
  unfold keyCount colVals
  rw [List.countP_map]
  rfl

theorem matchesIn_length_of_beq {t : Table} {c : String} {v kk : Cell}
    (h : Cell.beqNative v kk = true) :
    (matchesIn t c kk).length = keyCount t c v := by
  unfold matchesIn
  rw [← List.countP_eq_length_filter, keyCount_eq_countP]
  refine List.countP_congr ?_
  intro r _
  rw [Cell.beqNative_congr_left h (rowKey t c r)]

theorem colIdx_lt_of_mem {t : Table} {c : String} (hc : c ∈ t.cols) :
    colIdx t c < t.cols.length :=
  List.indexOf_lt_length.mpr hc

theorem rowCell_append_left {r1 r2 : List Cell} {i : Nat}
    (h : i < r1.length) : rowCell (r1 ++ r2) i = rowCell r1 i :=
  List.getD_append _ _ _ _ h

theorem rowCell_nullRow_append {r2 : List Cell} {w i : Nat} (h : i < w) :
    rowCell (nullRow w ++ r2) i = Cell.null := by
  unfold rowCell nullRow
  have hlen : i < (List.replicate w Cell.null).length := by
    rw [List.length_replicate]; exact h
  rw [List.getD_append _ _ _ _ hlen, List.getD_eq_getElem _ _ hlen,
    List.getElem_replicate]

/-- The count, over the rows of the inner join, of a left-key value:
the inner join contains `keyCount A v * keyCount B v` rows whose
left join-key cell natively equals `v`. -/
theorem innerRows_countP (t1 t2 : Table) (c1 c2 : String) (v : Cell)
    (h1 : t1.WF) (hc1 : c1 ∈ t1.cols) :
    (innerRows t1 c1 t2 c2).countP
        (fun r => Cell.beqNative v (rowCell r (colIdx t1 c1)))
      = keyCount t1 c1 v * keyCount t2 c2 v := by
  unfold innerRows
  rw [countP_flatMap]
  have hstep : ∀ r1 ∈ t1.rows,
      ((matchesIn t2 c2 (rowKey t1 c1 r1)).map (fun r2 => r1 ++ r2)).countP
          (fun r => Cell.beqNative v (rowCell r (colIdx t1 c1)))
        = if Cell.beqNative v (rowKey t1 c1 r1) then keyCount t2 c2 v
          else 0 := by
    intro r1 hr1
    have hlen : colIdx t1 c1 < r1.length := by
      rw [h1 r1 hr1]; exact colIdx_lt_of_mem hc1
    rw [List.countP_map]
    cases hbeq : Cell.beqNative v (rowKey t1 c1 r1) with
    | true =>
      rw [if_pos rfl]
      have hall : (matchesIn t2 c2 (rowKey t1 c1 r1)).countP
          ((fun r => Cell.beqNative v (rowCell r (colIdx t1 c1))) ∘
            fun r2 => r1 ++ r2)
          = (matchesIn t2 c2 (rowKey t1 c1 r1)).length :=
        List.countP_eq_length.mpr (fun r2 _ => by
          show Cell.beqNative v (rowCell (r1 ++ r2) (colIdx t1 c1)) = true
          rw [rowCell_append_left hlen]
          exact hbeq)
      rw [hall, matchesIn_length_of_beq hbeq]
    | false =>
      rw [if_neg Bool.false_ne_true]
      rw [List.countP_eq_zero]
      intro r2 _
      show ¬ Cell.beqNative v (rowCell (r1 ++ r2) (colIdx t1 c1)) = true
      rw [rowCell_append_left hlen]
      intro hbad
      have hbad' : Cell.beqNative v (rowKey t1 c1 r1) = true := hbad
      rw [hbeq] at hbad'
      exact Bool.false_ne_true hbad'
  rw [List.map_congr_left hstep, sum_map_ite, keyCount_eq_countP t1 c1 v,
    Nat.mul_comm]

/-- The count, over the rows of the full outer join, of a non-null key
value occurring on both sides: the outer join also contains
`keyCount A v * keyCount B v` rows whose left join-key cell natively
equals `v`. -/
theorem outerRows_countP (t1 t2 : Table) (c1 c2 : String) (v : Cell)
    (h1 : t1.WF) (hc1 : c1 ∈ t1.cols) (hv : v.isNull = false)
    (hk : 1 ≤ keyCount t1 c1 v) (hm : 1 ≤ keyCount t2 c2 v) :
    (outerRows t1 c1 t2 c2).countP
        (fun r => Cell.beqNative v (rowCell r (colIdx t1 c1)))
      = keyCount t1 c1 v * keyCount t2 c2 v := by
  unfold outerRows
  rw [countP_flatMap]
  have hw1 : colIdx t1 c1 < t1.cols.length := colIdx_lt_of_mem hc1
  have hstep : ∀ kk ∈ outerKeys t1 c1 t2 c2,
      (outerGroup t1 c1 t2 c2 kk).countP
          (fun r => Cell.beqNative v (rowCell r (colIdx t1 c1)))
        = if Cell.beqNative kk v then keyCount t1 c1 v * keyCount t2 c2 v
          else 0 := by
    intro kk _
    unfold outerGroup
    cases hkv : Cell.beqNative kk v with
    | true =>
      rw [if_pos rfl]
      have hvkk : Cell.beqNative v kk = true := Cell.beqNative_symm hkv
      have hls : (matchesIn t1 c1 kk).length = keyCount t1 c1 v :=
        matchesIn_length_of_beq hvkk
      have hrs : (matchesIn t2 c2 kk).length = keyCount t2 c2 v :=
        matchesIn_length_of_beq hvkk
      have hlsne : (matchesIn t1 c1 kk).isEmpty = false := by
        rw [List.isEmpty_eq_false]
        intro hnil
        rw [hnil] at hls
        simp at hls
        omega
      have hrsne : (matchesIn t2 c2 kk).isEmpty = false := by
        rw [List.isEmpty_eq_false]
        intro hnil
        rw [hnil] at hrs
        simp at hrs
        omega
      rw [hlsne, hrsne, if_neg Bool.false_ne_true, if_neg Bool.false_ne_true]
      have hall : ((matchesIn t1 c1 kk).flatMap fun r1 =>
            (matchesIn t2 c2 kk).map (fun r2 => r1 ++ r2)).countP
              (fun r => Cell.beqNative v (rowCell r (colIdx t1 c1)))
          = ((matchesIn t1 c1 kk).flatMap fun r1 =>
              (matchesIn t2 c2 kk).map (fun r2 => r1 ++ r2)).length :=
        List.countP_eq_length.mpr (fun r hr => by
          rcases List.mem_flatMap.mp hr with ⟨r1, hr1, hr'⟩
          rcases List.mem_map.mp hr' with ⟨r2, _, rfl⟩
          have hr1t : r1 ∈ t1.rows := List.mem_of_mem_filter hr1
          have hlen : colIdx t1 c1 < r1.length := by
            rw [h1 r1 hr1t]; exact hw1
          show Cell.beqNative v (rowCell (r1 ++ r2) (colIdx t1 c1)) = true
          rw [rowCell_append_left hlen]
          have hkk1 : Cell.beqNative kk (rowKey t1 c1 r1) = true :=
            (List.mem_filter.mp hr1).2
          exact Cell.beqNative_trans hvkk hkk1)
      rw [hall]
      have hlenfm :
          ((matchesIn t1 c1 kk).flatMap fun r1 =>
              (matchesIn t2 c2 kk).map (fun r2 => r1 ++ r2)).length
            = (matchesIn t1 c1 kk).length * (matchesIn t2 c2 kk).length := by
        rw [List.length_flatMap]
        have hconst :
            List.map (List.length ∘ fun r1 =>
                (matchesIn t2 c2 kk).map (fun r2 => r1 ++ r2))
              (matchesIn t1 c1 kk)
              = List.map (fun _ => (matchesIn t2 c2 kk).length)
                  (matchesIn t1 c1 kk) := by
          refine List.map_congr_left ?_
          intro r1 _
          simp [Function.comp]
        rw [hconst, List.map_const', List.sum_replicate, smul_eq_mul]
      rw [hlenfm, hls, hrs]
    | false =>
      rw [if_neg Bool.false_ne_true]
      rw [List.countP_eq_zero]
      have hnotv : ∀ r1 ∈ matchesIn t1 c1 kk, ∀ r2 : List Cell,
          ¬ Cell.beqNative v (rowCell (r1 ++ r2) (colIdx t1 c1)) = true := by
        intro r1 hr1 r2 hbad
        have hr1t : r1 ∈ t1.rows := List.mem_of_mem_filter hr1
        have hlen : colIdx t1 c1 < r1.length := by
          rw [h1 r1 hr1t]; exact hw1
        rw [rowCell_append_left hlen] at hbad
        have hkk1 : Cell.beqNative kk (rowKey t1 c1 r1) = true :=
          (List.mem_filter.mp hr1).2
        have hkkv : Cell.beqNative kk v = true :=
          Cell.beqNative_trans hkk1 (Cell.beqNative_symm hbad)
        rw [hkv] at hkkv
        exact Bool.false_ne_true hkkv
      by_cases hlse : (matchesIn t1 c1 kk).isEmpty = true
      · rw [hlse, if_pos rfl]
        intro r hr
        rcases List.mem_map.mp hr with ⟨r2, _, rfl⟩
        show ¬ Cell.beqNative v (rowCell (nullRow t1.width ++ r2)
          (colIdx t1 c1)) = true
        rw [rowCell_nullRow_append (show colIdx t1 c1 < t1.width from hw1),
          Cell.beqNative_null_of_not_null hv]
        exact Bool.false_ne_true
      · rw [Bool.not_eq_true] at hlse
        rw [hlse, if_neg Bool.false_ne_true]
        by_cases hrse : (matchesIn t2 c2 kk).isEmpty = true
        · rw [hrse, if_pos rfl]
          intro r hr
          rcases List.mem_map.mp hr with ⟨r1, hr1, rfl⟩
          exact hnotv r1 hr1 (nullRow t2.width)
        · rw [Bool.not_eq_true] at hrse
          rw [hrse, if_neg Bool.false_ne_true]
          intro r hr
          rcases List.mem_flatMap.mp hr with ⟨r1, hr1, hr'⟩
          rcases List.mem_map.mp hr' with ⟨r2, _, rfl⟩
          exact hnotv r1 hr1 r2
  rw [List.map_congr_left hstep, sum_map_ite]
  have hcov : ∃ kk ∈ outerKeys t1 c1 t2 c2, Cell.beqNative kk v = true := by
    have hpos : 0 < (colVals t1 c1).countP (fun x => Cell.beqNative v x) := by
      unfold keyCount at hk; omega
    rcases List.countP_pos_iff.mp hpos with ⟨x, hx, hbx⟩
    have hxall : x ∈ allKeys t1 c1 t2 c2 := by
      unfold allKeys
      exact List.mem_append.mpr (Or.inl hx)
    have hxd := dedupKeys_covers hxall
    rcases hxd with ⟨kk, hkk, hbkk⟩
    refine ⟨kk, ?_, ?_⟩
    · unfold outerKeys
      exact ((perm_sortCells _).mem_iff).mpr hkk
    · exact Cell.beqNative_trans hbkk (Cell.beqNative_symm hbx)
  have hpw : (outerKeys t1 c1 t2 c2).Pairwise
      (fun a b => Cell.beqNative a b = false) := by
    unfold outerKeys
    have hsymm : ∀ {x y : Cell},
        Cell.beqNative x y = false → Cell.beqNative y x = false := by
      intro x y hxy
      cases hyx : Cell.beqNative y x with
      | false => rfl
      | true =>
        rw [Cell.beqNative_symm hyx] at hxy
        exact absurd hxy.symm Bool.false_ne_true
    exact ((perm_sortCells _).pairwise_iff hsymm).mpr (dedupKeys_pairwise _)
  rw [countP_beq_one hcov hpw, Nat.mul_one]

/-! ## Outer-key set lemmas -/

theorem mem_allKeys_of_mem_outerKeys {t1 t2 : Table} {c1 c2 : String}
    {kk : Cell} (h : kk ∈ outerKeys t1 c1 t2 c2) :
    kk ∈ allKeys t1 c1 t2 c2 :=
  dedupKeys_subset (((perm_sortCells _).mem_iff).mp h)

theorem outerKeys_covers {t1 t2 : Table} {c1 c2 : String} {x : Cell}
    (h : x ∈ allKeys t1 c1 t2 c2) :
    ∃ kk ∈ outerKeys t1 c1 t2 c2, Cell.beqNative kk x = true := by
  rcases dedupKeys_covers h with ⟨kk, hkk, hb⟩
  exact ⟨kk, ((perm_sortCells _).mem_iff).mpr hkk, hb⟩

theorem outerKeys_pairwise (t1 : Table) (c1 : String) (t2 : Table)
    (c2 : String) :
    (outerKeys t1 c1 t2 c2).Pairwise
      (fun a b => Cell.beqNative a b = false) := by
  unfold outerKeys
  have hsymm : ∀ {x y : Cell},
      Cell.beqNative x y = false → Cell.beqNative y x = false := by
    intro x y hxy
    cases hyx : Cell.beqNative y x with
    | false => rfl
    | true =>
      rw [Cell.beqNative_symm hyx] at hxy
      exact absurd hxy.symm Bool.false_ne_true
  exact ((perm_sortCells _).pairwise_iff hsymm).mpr (dedupKeys_pairwise _)

theorem sum_map_matchesIn_length {t : Table} {c : String} (ks : List Cell)
    (hcov : ∀ r ∈ t.rows, ∃ k ∈ ks, Cell.beqNative k (rowKey t c r) = true)
    (hpw : ks.Pairwise (fun a b => Cell.beqNative a b = false)) :
    (ks.map (fun kk => (matchesIn t c kk).length)).sum = t.rows.length := by
  have h1 : ks.map (fun kk => (matchesIn t c kk).length)
      = ks.map (fun kk =>
          t.rows.countP (fun r => Cell.beqNative kk (rowKey t c r))) := by
    refine List.map_congr_left ?_
    intro kk _
    unfold matchesIn
    rw [← List.countP_eq_length_filter]
  rw [h1]
  exact sum_countP_key (rowKey t c) t.rows ks hcov hpw

/-! ## Joins on tables with no natively matching keys -/

theorem flatMap_eq_nil_of {α β : Type} {l : List α} {f : α → List β}
    (h : ∀ a ∈ l, f a = []) : l.flatMap f = [] := by
  induction l with
  | nil => rfl
  | cons a l ih =>
    rw [List.flatMap_cons, h a (List.mem_cons_self _ _), List.nil_append]
    exact ih (fun a' ha' => h a' (List.mem_cons_of_mem _ ha'))

theorem innerRows_eq_nil_of_disjoint (t1 t2 : Table) (c1 c2 : String)
    (hnone : ∀ k1 ∈ colVals t1 c1, ∀ k2 ∈ colVals t2 c2,
      Cell.beqNative k1 k2 = false) :
    innerRows t1 c1 t2 c2 = [] := by
  unfold innerRows
  refine flatMap_eq_nil_of ?_
  intro r1 hr1
  have hms : matchesIn t2 c2 (rowKey t1 c1 r1) = [] := by
    unfold matchesIn
    rw [List.filter_eq_nil_iff]
    intro r2 hr2 hbad
    have := hnone (rowKey t1 c1 r1) (List.mem_map_of_mem _ hr1)
      (rowKey t2 c2 r2) (List.mem_map_of_mem _ hr2)
    rw [this] at hbad
    exact Bool.false_ne_true hbad
  rw [hms]
  rfl

theorem outerRows_length_of_disjoint (t1 t2 : Table) (c1 c2 : String)
    (hnone : ∀ k1 ∈ colVals t1 c1, ∀ k2 ∈ colVals t2 c2,
      Cell.beqNative k1 k2 = false) :
    (outerRows t1 c1 t2 c2).length = t1.rows.length + t2.rows.length := by
  unfold outerRows
  rw [List.length_flatMap]
  have hstep : ∀ kk ∈ outerKeys t1 c1 t2 c2,
      (List.length ∘ outerGroup t1 c1 t2 c2) kk
        = (matchesIn t1 c1 kk).length + (matchesIn t2 c2 kk).length := by
    intro kk hkk
    show (outerGroup t1 c1 t2 c2 kk).length = _
    rcases List.mem_append.mp (mem_allKeys_of_mem_outerKeys hkk) with h1 | h2
    · have hrs : matchesIn t2 c2 kk = [] := by
        unfold matchesIn
        rw [List.filter_eq_nil_iff]
        intro r2 hr2 hbad
        have := hnone kk h1 (rowKey t2 c2 r2) (List.mem_map_of_mem _ hr2)
        rw [this] at hbad
        exact Bool.false_ne_true hbad
      have hlsne : (matchesIn t1 c1 kk).isEmpty = false := by
        rw [List.isEmpty_eq_false]
        rcases List.mem_map.mp h1 with ⟨r1, hr1, hkey⟩
        have hmem : r1 ∈ matchesIn t1 c1 kk := by
          unfold matchesIn
          refine List.mem_filter.mpr ⟨hr1, ?_⟩
          rw [hkey]
          exact Cell.beqNative_refl kk
        exact List.ne_nil_of_mem hmem
      unfold outerGroup
      rw [hlsne, if_neg Bool.false_ne_true, hrs]
      simp
    · have hls : matchesIn t1 c1 kk = [] := by
        unfold matchesIn
        rw [List.filter_eq_nil_iff]
        intro r1 hr1 hbad
        have hsy : Cell.beqNative (rowKey t1 c1 r1) kk = true :=
          Cell.beqNative_symm hbad
        have := hnone (rowKey t1 c1 r1) (List.mem_map_of_mem _ hr1) kk h2
        rw [this] at hsy
        exact Bool.false_ne_true hsy
      unfold outerGroup
      rw [hls]
      simp
  rw [List.map_congr_left hstep,
    sum_map_add (fun kk => (matchesIn t1 c1 kk).length)
      (fun kk => (matchesIn t2 c2 kk).length)]
  have hcov1 : ∀ r ∈ t1.rows, ∃ k ∈ outerKeys t1 c1 t2 c2,
      Cell.beqNative k (rowKey t1 c1 r) = true := by
    intro r hr
    exact outerKeys_covers
      (List.mem_append.mpr (Or.inl (List.mem_map_of_mem _ hr)))
  have hcov2 : ∀ r ∈ t2.rows, ∃ k ∈ outerKeys t1 c1 t2 c2,
      Cell.beqNative k (rowKey t2 c2 r) = true := by
    intro r hr
    exact outerKeys_covers
      (List.mem_append.mpr (Or.inr (List.mem_map_of_mem _ hr)))
  rw [sum_map_matchesIn_length _ hcov1 (outerKeys_pairwise t1 c1 t2 c2),
    sum_map_matchesIn_length _ hcov2 (outerKeys_pairwise t1 c1 t2 c2)]

/-! ## Left-join completeness lemmas -/

theorem leftRows_mem_take (t1 t2 : Table) (c1 c2 : String) (h1 : t1.WF) :
    ∀ r1 ∈ t1.rows, ∃ mr ∈ leftRows t1 c1 t2 c2, mr.take t1.width = r1 := by
  intro r1 hr1
  have hw : t1.width = r1.length := (h1 r1 hr1).symm
  by_cases hms : (matchesIn t2 c2 (rowKey t1 c1 r1)).isEmpty = true
  · refine ⟨r1 ++ nullRow t2.width, ?_, ?_⟩
    · refine List.mem_flatMap.mpr ⟨r1, hr1, ?_⟩
      rw [if_pos hms]
      exact List.mem_singleton.mpr rfl
    · rw [hw]
      exact List.take_left r1 _
  · rw [Bool.not_eq_true, List.isEmpty_eq_false] at hms
    rcases List.exists_mem_of_ne_nil _ hms with ⟨r2, hr2⟩
    refine ⟨r1 ++ r2, ?_, ?_⟩
    · refine List.mem_flatMap.mpr ⟨r1, hr1, ?_⟩
      rw [if_neg (fun h => hms (List.isEmpty_iff.mp h))]
      exact List.mem_map_of_mem _ hr2
    · rw [hw]
      exact List.take_left r1 r2

theorem leftRows_unmatched_count (t1 t2 : Table) (c1 c2 : String)
    (h1 : t1.WF) (r1 : List Cell) (hr1 : r1 ∈ t1.rows)
    (hnm : matchesIn t2 c2 (rowKey t1 c1 r1) = []) :
    (leftRows t1 c1 t2 c2).countP
        (fun mr => decide (mr = r1 ++ nullRow t2.width))
      = t1.rows.countP (fun r => decide (r = r1)) := by
  unfold leftRows
  rw [countP_flatMap]
  have hstep : ∀ r ∈ t1.rows,
      (if (matchesIn t2 c2 (rowKey t1 c1 r)).isEmpty then
          [r ++ nullRow t2.width]
        else (matchesIn t2 c2 (rowKey t1 c1 r)).map
          (fun r2 => r ++ r2)).countP
          (fun mr => decide (mr = r1 ++ nullRow t2.width))
        = if decide (r = r1) then 1 else 0 := by
    intro r hr
    have hlen : r.length = r1.length := by
      rw [h1 r hr, h1 r1 hr1]
    by_cases heq : r = r1
    · subst heq
      rw [hnm]
      simp [List.countP_cons]
    · have hd : decide (r = r1) = false := decide_eq_false heq
      rw [hd, if_neg Bool.false_ne_true, List.countP_eq_zero]
      have hne : ∀ x : List Cell, ¬ (r ++ x = r1 ++ nullRow t2.width) := by
        intro x hx
        exact heq (List.append_inj hx hlen).1
      by_cases hms : (matchesIn t2 c2 (rowKey t1 c1 r)).isEmpty = true
      · rw [if_pos hms]
        intro mr hmr
        rw [List.mem_singleton.mp hmr]
        intro hbad
        exact hne _ (of_decide_eq_true hbad)
      · rw [if_neg hms]
        intro mr hmr
        rcases List.mem_map.mp hmr with ⟨r2, _, rfl⟩
        intro hbad
        exact hne _ (of_decide_eq_true hbad)
  rw [List.map_congr_left hstep, sum_map_ite, Nat.one_mul]

/-! ## Row-ordering lemmas -/

theorem map_take_innerRows (t1 t2 : Table) (c1 c2 : String) (h1 : t1.WF) :
    (innerRows t1 c1 t2 c2).map (List.take t1.width)
      = t1.rows.flatMap (fun r1 =>
          List.replicate (matchesIn t2 c2 (rowKey t1 c1 r1)).length r1) := by
  unfold innerRows
  rw [List.map_flatMap]
  refine List.flatMap_congr ?_
  intro r1 hr1
  have hw : t1.width = r1.length := (h1 r1 hr1).symm
  have hmapeq : ((matchesIn t2 c2 (rowKey t1 c1 r1)).map
        (fun r2 => r1 ++ r2)).map (List.take t1.width)
      = (matchesIn t2 c2 (rowKey t1 c1 r1)).map (fun _ => r1) := by
    rw [List.map_map]
    refine List.map_congr_left ?_
    intro r2 _
    show List.take t1.width (r1 ++ r2) = r1
    rw [hw]
    exact List.take_left r1 r2
  rw [hmapeq, List.map_const']

theorem map_take_leftRows (t1 t2 : Table) (c1 c2 : String) (h1 : t1.WF) :
    (leftRows t1 c1 t2 c2).map (List.take t1.width)
      = t1.rows.flatMap (fun r1 =>
          List.replicate
            (max 1 (matchesIn t2 c2 (rowKey t1 c1 r1)).length) r1) := by
  unfold leftRows
  rw [List.map_flatMap]
  refine List.flatMap_congr ?_
  intro r1 hr1
  have hw : t1.width = r1.length := (h1 r1 hr1).symm
  by_cases hms : (matchesIn t2 c2 (rowKey t1 c1 r1)).isEmpty = true
  · rw [if_pos hms]
    rw [List.isEmpty_iff] at hms
    rw [hms]
    simp only [List.length_nil, Nat.max_eq_left (Nat.zero_le 1),
      List.map_cons, List.map_nil, List.replicate_one]
    rw [hw]
    rw [List.take_left r1 _]
  · rw [if_neg hms]
    rw [Bool.not_eq_true, List.isEmpty_eq_false] at hms
    have hlen1 : 1 ≤ (matchesIn t2 c2 (rowKey t1 c1 r1)).length :=
      List.length_pos_of_ne_nil hms
    rw [Nat.max_eq_right hlen1, List.map_map]
    have hmapeq : (matchesIn t2 c2 (rowKey t1 c1 r1)).map
          (List.take t1.width ∘ fun r2 => r1 ++ r2)
        = (matchesIn t2 c2 (rowKey t1 c1 r1)).map (fun _ => r1) := by
      refine List.map_congr_left ?_
      intro r2 _
      show List.take t1.width (r1 ++ r2) = r1
      rw [hw]
      exact List.take_left r1 r2
    rw [hmapeq, List.map_const']

theorem map_drop_rightRows (t1 t2 : Table) (c1 c2 : String) (h1 : t1.WF) :
    (rightRows t1 c1 t2 c2).map (List.drop t1.width)
      = t2.rows.flatMap (fun r2 =>
          List.replicate
            (max 1 (matchesIn t1 c1 (rowKey t2 c2 r2)).length) r2) := by
  unfold rightRows
  rw [List.map_flatMap]
  refine List.flatMap_congr ?_
  intro r2 _
  have hdrop : List.drop t1.width (nullRow t1.width ++ r2) = r2 := by
    have h := List.drop_left (nullRow t1.width) r2
    simp only [nullRow, List.length_replicate] at h
    exact h
  by_cases hms : (matchesIn t1 c1 (rowKey t2 c2 r2)).isEmpty = true
  · rw [if_pos hms]
    rw [List.isEmpty_iff] at hms
    rw [hms]
    simp only [List.length_nil, Nat.max_eq_left (Nat.zero_le 1),
      List.map_cons, List.map_nil, List.replicate_one]
    rw [hdrop]
  · rw [if_neg hms]
    rw [Bool.not_eq_true, List.isEmpty_eq_false] at hms
    have hlen1 : 1 ≤ (matchesIn t1 c1 (rowKey t2 c2 r2)).length :=
      List.length_pos_of_ne_nil hms
    rw [Nat.max_eq_right hlen1, List.map_map]
    have hmapeq : (matchesIn t1 c1 (rowKey t2 c2 r2)).map
          (List.drop t1.width ∘ fun r1 => r1 ++ r2)
        = (matchesIn t1 c1 (rowKey t2 c2 r2)).map (fun _ => r2) := by
      refine List.map_congr_left ?_
      intro r1 hr1m
      show List.drop t1.width (r1 ++ r2) = r2
      have hr1t : r1 ∈ t1.rows := List.mem_of_mem_filter hr1m
      rw [show t1.width = r1.length from (h1 r1 hr1t).symm]
      exact List.drop_left r1 r2
    rw [hmapeq, List.map_const']

/-! ## Loader and exporter lemmas -/

theorem headerNamesAux_length (i : Nat) (l : List Cell) :
    (headerNamesAux i l).length = l.length := by
  induction l generalizing i with
  | nil => rfl
  | cons c cs ih => simp [headerNamesAux, ih]

theorem headerNamesAux_map_str (i : Nat) (l : List String) :
    headerNamesAux i (l.map Cell.str) = l := by
  induction l generalizing i with
  | nil => rfl
  | cons s ss ih =>
    simp [headerNamesAux, Cell.isNull, Cell.pyStr, excelRetype, ih]

theorem roundtripCell_eq {c : Cell} (ht : c.textOrNum = true)
    (hs : c.safeText = true) :
    naConvert (excelRetype (toExcelCell c)) = excelRetype c := by
  cases c with
  | null => simp [Cell.textOrNum] at ht
  | str s =>
    have hs' : naTokens.contains s = false := by
      simpa [Cell.safeText] using hs
    simp only [toExcelCell, excelRetype, naConvert]
    rw [if_neg]
    intro hmem
    rw [hs'] at hmem
    exact Bool.false_ne_true hmem
  | intv n => rfl
  | floatv n => rfl

/-! ## Claim C1 -/

/-- Claim C1 counterexample: the number 2 and the text `"2"` have the
same canonical text representation, yet the inner join of two
single-cell tables holding them produces no row — the join does not
treat them as equal, contradicting the claim that key equality is
canonical-text equality. -/
theorem C1_counterexample :
    Cell.pyStr (Cell.intv 2) = Cell.pyStr (Cell.str "2") ∧
    mergeRows (Table.mk ["id"] [[Cell.intv 2]]) "id"
      (Table.mk ["id"] [[Cell.str "2"]]) "id" JoinKind.inner = [] := by
  constructor
  · rfl
  · decide

/-- Claim C1 (amended): the join treats two key values as equal exactly
when they are equal as *native* values (`beqNative`): identical text,
numerically equal numbers (across int/float), or both missing. Canonical
text equality is used only by the validator; a number and a text value
that stringify identically are not matched. -/
theorem C1_amended_native_key_equality (k1 k2 : Cell) (c : String) :
    mergeRows (Table.mk [c] [[k1]]) c (Table.mk [c] [[k2]]) c
        JoinKind.inner ≠ [] ↔
      Cell.beqNative k1 k2 = true := by
  show innerRows (Table.mk [c] [[k1]]) c (Table.mk [c] [[k2]]) c ≠ [] ↔ _
  cases h : Cell.beqNative k1 k2 with
  | true =>
    simp [innerRows, matchesIn, rowKey, rowCell, colIdx,
      List.indexOf_cons_self, h]
  | false =>
    simp [innerRows, matchesIn, rowKey, rowCell, colIdx,
      List.indexOf_cons_self, h]

/-! ## Claim C2 -/

/-- Claim C2 (confirmed): whenever the computed key overlap is empty,
the flow stops with the blocking error before any join is attempted —
the result is `Except.error` and no merged table or download exists. -/
theorem C2_no_overlap_blocks_join (t1 t2 : Table) (c1 c2 : String)
    (how : JoinKind) (h : common t1 c1 t2 c2 = []) :
    runJoinFlow t1 c1 t2 c2 how
      = Except.error "No matching values found" := by
  simp [runJoinFlow, h]

/-- Witness for C2 at concrete tables with disjoint keys. -/
theorem C2_no_overlap_blocks_join_witness :
    common (Table.mk ["k"] [[Cell.str "a"]]) "k"
        (Table.mk ["k"] [[Cell.str "b"]]) "k" = [] ∧
    runJoinFlow (Table.mk ["k"] [[Cell.str "a"]]) "k"
        (Table.mk ["k"] [[Cell.str "b"]]) "k" JoinKind.inner
      = Except.error "No matching values found" :=
  ⟨by decide,
    C2_no_overlap_blocks_join _ _ "k" "k" JoinKind.inner (by decide)⟩

/-! ## Claim C3 -/

/-- Claim C3 counterexample: with the text `" 2"` (leading space) on
one side and `"2"` on the other, the trimmed-intersection the claim
describes is `["2"]` (non-empty), but the implemented `common` is empty:
`astype(str)` does not trim, so `overlap` is not the trimmed
intersection. -/
theorem C3_counterexample :
    common (Table.mk ["c"] [[Cell.str " 2"]]) "c"
        (Table.mk ["c"] [[Cell.str "2"]]) "c"
      ≠ overlapSpecTrimmed (Table.mk ["c"] [[Cell.str " 2"]]) "c"
          (Table.mk ["c"] [[Cell.str "2"]]) "c" ∧
    common (Table.mk ["c"] [[Cell.str " 2"]]) "c"
        (Table.mk ["c"] [[Cell.str "2"]]) "c" = [] ∧
    overlapSpecTrimmed (Table.mk ["c"] [[Cell.str " 2"]]) "c"
        (Table.mk ["c"] [[Cell.str "2"]]) "c" = ["2"] := by
  decide

/-- Claim C3 (amended): `common` returns exactly the intersection of the
two sets obtained by collecting each column's non-null values and
coercing each to its *untrimmed* canonical text representation
(`astype(str)` applies no trimming), deduplicated. -/
theorem C3_amended_overlap_untrimmed (t1 t2 : Table) (c1 c2 : String) :
    (common t1 c1 t2 c2).Nodup ∧
    ∀ s : String, s ∈ common t1 c1 t2 c2 ↔
      ((∃ v ∈ colVals t1 c1, v.isNull = false ∧ v.pyStr = s) ∧
       (∃ v ∈ colVals t2 c2, v.isNull = false ∧ v.pyStr = s)) := by
  have hks : ∀ (t : Table) (c : String) (s : String),
      s ∈ seriesKeys t c ↔
        ∃ v ∈ colVals t c, v.isNull = false ∧ v.pyStr = s := by
    intro t c s
    unfold seriesKeys
    rw [mem_dedupStr]
    constructor
    · intro hmem
      rcases List.mem_map.mp hmem with ⟨v, hv, rfl⟩
      rcases List.mem_filter.mp hv with ⟨hvc, hnn⟩
      rw [Bool.not_eq_true'] at hnn
      exact ⟨v, hvc, hnn, rfl⟩
    · rintro ⟨v, hvc, hnn, hps⟩
      refine List.mem_map.mpr ⟨v, List.mem_filter.mpr ⟨hvc, ?_⟩, hps⟩
      rw [Bool.not_eq_true']
      exact hnn
  have hcont : ∀ (l : List String) (s : String),
      l.contains s = true ↔ s ∈ l := by
    intro l s
    have he : l.contains s = decide (s ∈ l) := List.elem_eq_mem s l
    rw [he, decide_eq_true_eq]
  constructor
  · exact (nodup_dedupStr _).filter _
  · intro s
    unfold common
    rw [List.mem_filter, hks t1 c1 s, hcont, hks t2 c2 s]

/-! ## Claim C4 -/

/-- Claim C4 (confirmed): a key value occurring `k` times in the left
join column and `m ≥ 1` times in the right join column contributes
exactly `k * m` rows to the inner join and to the full outer join —
the cartesian product within the key group, not deduplicated. -/
theorem C4_row_multiplicity (t1 t2 : Table) (c1 c2 : String) (v : Cell)
    (k m : Nat) (h1 : t1.WF) (hc1 : c1 ∈ t1.cols) (hv : v.isNull = false)
    (hk : keyCount t1 c1 v = k) (hm : keyCount t2 c2 v = m)
    (hk1 : 1 ≤ k) (hm1 : 1 ≤ m) :
    (mergeRows t1 c1 t2 c2 JoinKind.inner).countP
        (fun r => Cell.beqNative v (rowCell r (colIdx t1 c1))) = k * m ∧
    (mergeRows t1 c1 t2 c2 JoinKind.outer).countP
        (fun r => Cell.beqNative v (rowCell r (colIdx t1 c1))) = k * m := by
  subst hk
  subst hm
  constructor
  · exact innerRows_countP t1 t2 c1 c2 v h1 hc1
  · exact outerRows_countP t1 t2 c1 c2 v h1 hc1 hv hk1 hm1

/-- Witness for C4: the key `"v"` occurs twice on each side; both the
inner and the outer join contain exactly four rows for it. -/
theorem C4_row_multiplicity_witness :
    (Table.mk ["k"] [[Cell.str "v"], [Cell.str "v"], [Cell.str "w"]]).WF ∧
    (mergeRows (Table.mk ["k"] [[Cell.str "v"], [Cell.str "v"], [Cell.str "w"]])
        "k" (Table.mk ["k"] [[Cell.str "v"], [Cell.str "v"], [Cell.str "x"]])
        "k" JoinKind.inner).countP
        (fun r => Cell.beqNative (Cell.str "v") (rowCell r
          (colIdx (Table.mk ["k"]
            [[Cell.str "v"], [Cell.str "v"], [Cell.str "w"]]) "k")))
      = 2 * 2 ∧
    (mergeRows (Table.mk ["k"] [[Cell.str "v"], [Cell.str "v"], [Cell.str "w"]])
        "k" (Table.mk ["k"] [[Cell.str "v"], [Cell.str "v"], [Cell.str "x"]])
        "k" JoinKind.outer).countP
        (fun r => Cell.beqNative (Cell.str "v") (rowCell r
          (colIdx (Table.mk ["k"]
            [[Cell.str "v"], [Cell.str "v"], [Cell.str "w"]]) "k")))
      = 2 * 2 :=
  ⟨by decide,
    C4_row_multiplicity _ _ "k" "k" (Cell.str "v") 2 2 (by decide)
      (by decide) (by decide) (by decide) (by decide) (by decide) (by decide)⟩

/-! ## Claim C5 -/

/-- Claim C5 (confirmed): in the left join every row of the left table
appears at least once, and a left row whose key matches no right key
appears exactly once per occurrence, with the right columns
null-filled. -/
theorem C5_left_join_completeness (t1 t2 : Table) (c1 c2 : String)
    (h1 : t1.WF) : leftJoinCompleteness t1 c1 t2 c2 :=
  ⟨leftRows_mem_take t1 t2 c1 c2 h1,
    fun r1 hr1 hnm => leftRows_unmatched_count t1 t2 c1 c2 h1 r1 hr1 hnm⟩

/-- Witness for C5 at the spec's concrete scenario
(`A = [{id 1, x}, {id 2, y}]`, `B = [{id 2, p}, {id 3, q}]`). -/
theorem C5_left_join_completeness_witness :
    (Table.mk ["id", "name"]
      [[Cell.intv 1, Cell.str "x"], [Cell.intv 2, Cell.str "y"]]).WF ∧
    leftJoinCompleteness
      (Table.mk ["id", "name"]
        [[Cell.intv 1, Cell.str "x"], [Cell.intv 2, Cell.str "y"]]) "id"
      (Table.mk ["id", "val"]
        [[Cell.intv 2, Cell.str "p"], [Cell.intv 3, Cell.str "q"]]) "id" :=
  ⟨by decide, C5_left_join_completeness _ _ "id" "id" (by decide)⟩

/-! ## Claim C6 -/

/-- Claim C6 counterexample: with left keys in order `"b", "a"` and
right key `"c"`, the full outer join returns the rows in sorted key
order `a, b, c` — not the claimed left-table order followed by appended
right-only rows (`b, a, c`). -/
theorem C6_counterexample :
    mergeRows (Table.mk ["k"] [[Cell.str "b"], [Cell.str "a"]]) "k"
        (Table.mk ["k"] [[Cell.str "c"]]) "k" JoinKind.outer
      = [[Cell.str "a", Cell.null], [Cell.str "b", Cell.null],
         [Cell.null, Cell.str "c"]] ∧
    ([[Cell.str "a", Cell.null], [Cell.str "b", Cell.null],
       [Cell.null, Cell.str "c"]] : List (List Cell))
      ≠ [[Cell.str "b", Cell.null], [Cell.str "a", Cell.null],
         [Cell.null, Cell.str "c"]] := by
  decide

/-- Claim C6 (amended): inner and left joins preserve the left table's
row order as the primary iteration order, and the right join preserves
the right table's row order; the full outer join instead iterates its
key groups in sorted key order (right-only rows are interleaved at their
key's sorted position, not appended after the left-driven rows). -/
theorem C6_amended_row_ordering (t1 t2 : Table) (c1 c2 : String)
    (h1 : t1.WF) : mergeOrderingSpec t1 c1 t2 c2 :=
  ⟨map_take_innerRows t1 t2 c1 c2 h1,
    map_take_leftRows t1 t2 c1 c2 h1,
    map_drop_rightRows t1 t2 c1 c2 h1,
    sorted_sortCells _⟩

/-- Witness for C6 at the counterexample's tables. -/
theorem C6_amended_row_ordering_witness :
    (Table.mk ["k"] [[Cell.str "b"], [Cell.str "a"]]).WF ∧
    mergeOrderingSpec (Table.mk ["k"] [[Cell.str "b"], [Cell.str "a"]])
      "k" (Table.mk ["k"] [[Cell.str "c"]]) "k" :=
  ⟨by decide, C6_amended_row_ordering _ _ "k" "k" (by decide)⟩

/-! ## Claim C7 -/

/-- Claim C7 counterexample: an int column `[1]` and a float column
`[1.0]` have an empty string-coerced key overlap (`"1"` vs `"1.0"`), yet
the merge matches them natively: the inner join has one row (not zero)
and the full outer join has one row (not `len(A) + len(B) = 2`). -/
theorem C7_counterexample :
    common (Table.mk ["k"] [[Cell.intv 1]]) "k"
        (Table.mk ["k"] [[Cell.floatv 1]]) "k" = [] ∧
    (mergeRows (Table.mk ["k"] [[Cell.intv 1]]) "k"
        (Table.mk ["k"] [[Cell.floatv 1]]) "k" JoinKind.inner).length = 1 ∧
    (mergeRows (Table.mk ["k"] [[Cell.intv 1]]) "k"
        (Table.mk ["k"] [[Cell.floatv 1]]) "k" JoinKind.outer).length = 1 := by
  decide

/-- Claim C7 (amended): when no key of the left table is *natively*
equal to any key of the right table — which an empty string-coerced
overlap does not guarantee — the inner join yields zero rows and the
full outer join yields exactly `len(A) + len(B)` rows. -/
theorem C7_amended_degenerate_join_sizes (t1 t2 : Table) (c1 c2 : String)
    (hnone : ∀ k1 ∈ colVals t1 c1, ∀ k2 ∈ colVals t2 c2,
      Cell.beqNative k1 k2 = false) :
    mergeRows t1 c1 t2 c2 JoinKind.inner = [] ∧
    (mergeRows t1 c1 t2 c2 JoinKind.outer).length
      = t1.rows.length + t2.rows.length :=
  ⟨innerRows_eq_nil_of_disjoint t1 t2 c1 c2 hnone,
    outerRows_length_of_disjoint t1 t2 c1 c2 hnone⟩

/-- Witness for C7 at concrete tables with natively disjoint keys. -/
theorem C7_amended_degenerate_join_sizes_witness :
    (∀ k1 ∈ colVals (Table.mk ["k"] [[Cell.str "a"], [Cell.str "b"]]) "k",
      ∀ k2 ∈ colVals (Table.mk ["k"] [[Cell.str "c"]]) "k",
        Cell.beqNative k1 k2 = false) ∧
    mergeRows (Table.mk ["k"] [[Cell.str "a"], [Cell.str "b"]]) "k"
        (Table.mk ["k"] [[Cell.str "c"]]) "k" JoinKind.inner = [] ∧
    (mergeRows (Table.mk ["k"] [[Cell.str "a"], [Cell.str "b"]]) "k"
        (Table.mk ["k"] [[Cell.str "c"]]) "k" JoinKind.outer).length
      = 2 + 1 :=
  ⟨by decide,
    C7_amended_degenerate_join_sizes _ _ "k" "k" (by decide)⟩

/-! ## Claim C8 -/

/-- Claim C8 counterexample: a sheet whose header row is
`["a", blank]` over one data row loads as a table with *two* columns
(`"a"` and the generated `"Unnamed: 1"`), while the header row has only
one non-null cell — the loaded column count is the used-range width,
not the non-null header cell count. -/
theorem C8_counterexample :
    read_excel_with_header
        [[Cell.str "a", Cell.null], [Cell.intv 1, Cell.intv 2]] 0
      = some (Table.mk ["a", "Unnamed: 1"]
          [[Cell.floatv 1, Cell.floatv 2]]) ∧
    ([Cell.str "a", Cell.null].countP (fun c => !c.isNull)) = 1 ∧
    (2 : Nat) ≠ 1 := by
  decide

/-- Claim C8 (amended): for a rectangular used range of width `W` and a
header row strictly inside the sheet, loading yields a table whose
column count is `W` (blank header cells receive generated names rather
than being dropped) and whose row count is
`sheet rows − header_row − 1`. -/
theorem C8_amended_load_shape (sheet : Grid) (h W : Nat)
    (hrect : ∀ r ∈ sheet, r.length = W) (hlt : h < sheet.length) :
    ∃ t : Table, read_excel_with_header sheet h = some t ∧
      t.cols.length = W ∧ t.rows.length = sheet.length - h - 1 := by
  unfold read_excel_with_header
  cases hd : sheet.drop h with
  | nil =>
    exfalso
    rw [List.drop_eq_nil_iff] at hd
    omega
  | cons hdr rest =>
    refine ⟨_, rfl, ?_, ?_⟩
    · show (headerNames hdr).length = W
      unfold headerNames
      rw [headerNamesAux_length]
      have hmem : hdr ∈ sheet := by
        refine List.mem_of_mem_drop (n := h) ?_
        rw [hd]
        exact List.mem_cons_self _ _
      exact hrect hdr hmem
    · show (rest.map _).length = sheet.length - h - 1
      rw [List.length_map]
      have hlen : (sheet.drop h).length = sheet.length - h :=
        List.length_drop h sheet
      rw [hd] at hlen
      simp only [List.length_cons] at hlen
      omega

/-- Witness for C8 on a three-row, one-column sheet. -/
theorem C8_amended_load_shape_witness :
    (∀ r ∈ ([[Cell.str "a"], [Cell.intv 1], [Cell.intv 2]] : Grid),
      r.length = 1) ∧
    ∃ t : Table,
      read_excel_with_header
          [[Cell.str "a"], [Cell.intv 1], [Cell.intv 2]] 0 = some t ∧
      t.cols.length = 1 ∧
      t.rows.length
        = ([[Cell.str "a"], [Cell.intv 1], [Cell.intv 2]] : Grid).length
            - 0 - 1 :=
  ⟨by decide, C8_amended_load_shape _ 0 1 (by decide) (by decide)⟩

/-! ## Claim C9 -/

/-- Claim C9 counterexample, two failures of losslessness on tables of
only text and numeric cells: a table whose single cell is the *text*
`"nan"` re-loads as a null cell (the reader converts default NA
tokens), and a table whose single cell is the *int* 2 re-loads as the
float 2.0 (Excel stores the number untyped and the reader types every
number as float), changing the cell and its canonical text from `"2"`
to `"2.0"`. -/
theorem C9_counterexample :
    read_excel_with_header
        (convert_df_to_excel (Table.mk ["a"] [[Cell.str "nan"]])) 0
      = some (Table.mk ["a"] [[Cell.null]]) ∧
    (Table.mk ["a"] [[Cell.null]]) ≠ (Table.mk ["a"] [[Cell.str "nan"]]) ∧
    read_excel_with_header
        (convert_df_to_excel (Table.mk ["n"] [[Cell.intv 2]])) 0
      = some (Table.mk ["n"] [[Cell.floatv 2]]) ∧
    (Table.mk ["n"] [[Cell.floatv 2]]) ≠ (Table.mk ["n"] [[Cell.intv 2]]) := by
  decide

/-- Claim C9 (amended): exporting a table all of whose cells are numeric
or text outside the reader's default NA-token set, then re-loading the
exported sheet with the header at the first row, preserves the row
count, the column names, and every text cell exactly, and preserves
every numeric cell up to the reader's float re-typing (`excelRetype`):
the numeric value survives but the int/float distinction does not, so
the round trip is lossless only modulo numeric re-typing. -/
theorem C9_amended_roundtrip (t : Table)
    (hcells : ∀ r ∈ t.rows, ∀ c ∈ r,
      c.textOrNum = true ∧ c.safeText = true) :
    read_excel_with_header (convert_df_to_excel t) 0
      = some (Table.mk t.cols
          (t.rows.map (fun r => r.map excelRetype))) := by
  have h1 : headerNames (t.cols.map Cell.str) = t.cols :=
    headerNamesAux_map_str 0 t.cols
  have h2 : (t.rows.map (fun r => r.map toExcelCell)).map
        (fun r => r.map (fun c => naConvert (excelRetype c)))
      = t.rows.map (fun r => r.map excelRetype) := by
    rw [List.map_map]
    refine List.map_congr_left ?_
    intro r hr
    show (r.map toExcelCell).map (fun c => naConvert (excelRetype c))
      = r.map excelRetype
    rw [List.map_map]
    refine List.map_congr_left ?_
    intro c hc
    exact roundtripCell_eq (hcells r hr c hc).1 (hcells r hr c hc).2
  have hred : read_excel_with_header
        ((t.cols.map Cell.str) :: t.rows.map (fun r => r.map toExcelCell)) 0
      = some ⟨headerNames (t.cols.map Cell.str),
          (t.rows.map (fun r => r.map toExcelCell)).map
            (fun r => r.map (fun c => naConvert (excelRetype c)))⟩ := rfl
  show read_excel_with_header
      ((t.cols.map Cell.str) :: t.rows.map (fun r => r.map toExcelCell)) 0
    = some (Table.mk t.cols (t.rows.map (fun r => r.map excelRetype)))
  rw [hred, h1, h2]

/-- Witness for C9 on a table of numeric and ordinary text cells: the
text cells and the numeric values come back, the int 2 as float 2.0. -/
theorem C9_amended_roundtrip_witness :
    (∀ r ∈ (Table.mk ["id", "name"]
        [[Cell.intv 2, Cell.str "y"], [Cell.floatv 3, Cell.str "q"]]).rows,
      ∀ c ∈ r, c.textOrNum = true ∧ c.safeText = true) ∧
    read_excel_with_header
        (convert_df_to_excel (Table.mk ["id", "name"]
          [[Cell.intv 2, Cell.str "y"], [Cell.floatv 3, Cell.str "q"]])) 0
      = some (Table.mk ["id", "name"]
          [[Cell.floatv 2, Cell.str "y"], [Cell.floatv 3, Cell.str "q"]]) :=
  ⟨by decide, C9_amended_roundtrip _ (by decide)⟩

/-! ## Claim C10 -/

/-- Claim C10 (confirmed): there is a pair of tables for which the
overlap check succeeds — the float `2.0` and the text `"2.0"` stringify
identically — while the inner join returns zero rows, because the
validator compares `astype(str)` values and the join compares native
values. -/
theorem C10_validator_join_divergence :
    ∃ (t1 t2 : Table) (c1 c2 : String),
      common t1 c1 t2 c2 ≠ [] ∧
      mergeRows t1 c1 t2 c2 JoinKind.inner = [] :=
  ⟨Table.mk ["id"] [[Cell.floatv 2]],
   Table.mk ["id"] [[Cell.str "2.0"]], "id", "id",
   by decide, by decide⟩

end JoinTool
